import Mathlib

/-!
Verification of the enhanced-error / retry runtime of this repository
(the `errors` package and its `errmgr` companion).

The repository ships the `errmgr` sub-package sources (`errmgr.go` content
embedded alongside `monitor_test.go`, plus `monitor.go` and `common.go`),
together with the tests, benchmarks and examples of the core `errors`
package.  The core implementation files (`errors.go`, `multi_error.go`,
`retry.go`) are not present; for those components the definitions below are
modelled from the specification, with the exact message texts pinned by the
repository's own test files.

Conventions of the embedding:
* Go strings are Lean `String`s, Go `uint64`/`int` counters are `Nat`
  (no overflow is relevant to any property proved here).
* Pointer identity of error instances is modelled by an `eid : Nat` field:
  two distinct allocations carry distinct `eid`s.
* Go channels are modelled as FIFO lists with a capacity and a closed flag:
  a non-blocking send succeeds exactly when the channel is open and its
  buffer holds fewer elements than its capacity (an unbuffered channel,
  capacity 0, never accepts a non-blocking send without a waiting receiver,
  and the embedding is sequential).
* `sync.Map`s are association lists.
-/

namespace ErrorsPkg

/-- Modelled from the spec: the central `Error` entity of the core `errors`
package (whose `errors.go` is not among the shipped sources): a message, an
optional name, a context map, and at most one direct cause forming a
singly-linked chain.  `eid` models pointer identity of an allocated
instance; stack capture and pooling are orthogonal to the properties proved
here and are not modelled. -/
inductive Err : Type where
  | base (eid : Nat) (msg name : String) (ctx : List (String × String))
  | wrapped (eid : Nat) (msg name : String) (ctx : List (String × String)) (cause : Err)
deriving DecidableEq, Repr

/-- The instance identity (models the Go pointer). -/
def Err.eid : Err → Nat
  | .base i _ _ _ => i
  | .wrapped i _ _ _ _ => i

/-- The error's own message (the `msg` field of the Go struct). -/
def Err.msg : Err → String
  | .base _ m _ _ => m
  | .wrapped _ m _ _ _ => m

/-- The error's name (empty when unnamed). -/
def Err.name : Err → String
  | .base _ _ n _ => n
  | .wrapped _ _ n _ _ => n

/-- Accessor `Context()`: the error's own context entries. -/
def Err.Context : Err → List (String × String)
  | .base _ _ _ c => c
  | .wrapped _ _ _ c _ => c

/-- Accessor `Unwrap()`: the direct cause, if any. -/
def Err.cause : Err → Option Err
  | .base _ _ _ _ => none
  | .wrapped _ _ _ _ c => some c

/-- Modelled from the spec: `New(message)` constructs a plain error without
stack capture. -/
def New (eid : Nat) (message : String) : Err := .base eid message "" []

/-- Modelled from the spec: `Named(name)` constructs a named error; its
rendered message is the name itself (`Named("test_name").Error() ==
"test_name"` in the repository's tests). -/
def Named (eid : Nat) (name : String) : Err := .base eid name name []

/-- Modelled from the spec: `Wrap(cause)` sets the cause, preserving the
receiver's message, name and context. -/
def Err.Wrap (e c : Err) : Err := .wrapped e.eid e.msg e.name e.Context c

/-- Modelled from the spec: `With(key, value)` appends a context entry on
the receiver (the outermost layer); wrapping never mutates the cause. -/
def Err.With (k v : String) : Err → Err
  | .base i m n c => .base i m n (c ++ [(k, v)])
  | .wrapped i m n c cs => .wrapped i m n (c ++ [(k, v)]) cs

/-- Modelled from the spec: `Error()` renders `"message: cause.Error()"`
recursively, dropping empty message/cause segments so that no double colon
is produced. -/
def Err.Error : Err → String
  | .base _ m _ _ => m
  | .wrapped _ m _ _ c =>
    let cs := Err.Error c
    if m = "" then cs else if cs = "" then m else m ++ ": " ++ cs

/-- The messages of the layers of the cause chain, outermost first. -/
def Err.chainMsgs : Err → List String
  | .base _ m _ _ => [m]
  | .wrapped _ m _ _ c => m :: c.chainMsgs

/-- Joining a list of segments with `": "` separators. -/
def joinColon : List String → String
  | [] => ""
  | [m] => m
  | m :: rest => m ++ ": " ++ joinColon rest

/-- Modelled from the spec: `UnwrapAll(err)` produces the full ordered
sequence from outermost to innermost; each element carries only that
layer's own message/name/context, with no synthetic wrapper around the
root (the repository's tests check `chain[i].Error()` equals the layer's
own message). -/
def Err.UnwrapAll : Err → List Err
  | .base i m n c => [.base i m n c]
  | .wrapped i m n c cs => .base i m n c :: cs.UnwrapAll

/-- Does some link of the cause chain satisfy `p`? (the traversal that
underlies standard `errors.Is` unwrapping). -/
def Err.chainAny (p : Err → Bool) : Err → Bool
  | .base i m n c => p (.base i m n c)
  | .wrapped i m n c cs => p (.wrapped i m n c cs) || cs.chainAny p

/-- Modelled from the spec: one chain link matches the target if it is the
same instance, or both are named and the names are equal and non-empty. -/
def matchesTarget (t x : Err) : Bool :=
  x.eid == t.eid || (x.name != "" && x.name == t.name)

/-- Modelled from the spec: package-level `Is(err, target)` with
standard-library-compatible semantics generalized to match by non-empty
name equality; `nil` only matches `nil`. -/
def Is : Option Err → Option Err → Bool
  | none, none => true
  | none, some _ => false
  | some _, none => false
  | some e, some t => e.chainAny (matchesTarget t)

/-- Modelled from the spec: a value passed as a formatting argument to
`Newf`: a non-nil error, a typed nil error interface, or a plain non-error
value carrying its rendered text and its Go type name (as `%T` prints it,
e.g. `"string"`; a nil interface prints as `"<nil>"`). -/
inductive FmtArg : Type where
  | errArg (e : Err)
  | nilErr
  | plain (rendered typeName : String)
deriving DecidableEq, Repr

/-- The text an argument contributes when substituted for a verb. -/
def FmtArg.render : FmtArg → String
  | .errArg e => e.Error
  | .nilErr => "<nil>"
  | .plain r _ => r

/-- The `%T`-style type descriptor used in `Newf`'s malformation message. -/
def FmtArg.typeName : FmtArg → String
  | .errArg _ => "*errors.Error"
  | .nilErr => "<nil>"
  | .plain _ t => t

/-- Substitution text for the verb consuming argument `i`. -/
def renderAt (args : List FmtArg) (i : Nat) : String :=
  match args.get? i with
  | some a => a.render
  | none => "%!(MISSING)"

/-- Characters allowed between `%` and the verb letter (flags, width,
precision); `fmt.Errorf` ignores them for `%w`. -/
def isFlagChar (c : Char) : Bool :=
  c == '+' || c == '-' || c == '#' || c == ' ' || c == '.' || c.isDigit

/-- Scanner mode: either plain text, or inside a `%` directive (after the
`%` and zero or more flag characters). -/
inductive ScanMode : Type where
  | normal
  | verb
deriving DecidableEq, Repr

/-- Accumulated scanner state: rendered output so far, argument indices
consumed by `%w` verbs in order, and the next argument index. -/
structure ScanState : Type where
  out : String
  wArgs : List Nat
  argIdx : Nat
deriving DecidableEq, Repr

/-- Modelled from the spec: the single pass `Newf` makes over the format
string.  `%%` renders a literal percent; any other directive consumes the
next argument, a `%w` directive additionally records which argument it
consumed; a format exhausted while inside a directive ends with a bare `%`
(the returned flag). -/
def scanChars (args : List FmtArg) : List Char → ScanMode → ScanState → ScanState × Bool
  | [], mode, st => (st, match mode with | .verb => true | .normal => false)
  | c :: rest, .normal, st =>
    if c == '%' then scanChars args rest .verb st
    else scanChars args rest .normal { st with out := st.out ++ String.singleton c }
  | c :: rest, .verb, st =>
    if c == '%' then
      scanChars args rest .normal { st with out := st.out ++ "%" }
    else if isFlagChar c then
      scanChars args rest .verb st
    else if c == 'w' then
      scanChars args rest .normal
        { out := st.out ++ renderAt args st.argIdx
          wArgs := st.wArgs ++ [st.argIdx]
          argIdx := st.argIdx + 1 }
    else
      scanChars args rest .normal
        { st with
          out := st.out ++ renderAt args st.argIdx
          argIdx := st.argIdx + 1 }

/-- The argument indices consumed by the `%w` verbs of a format, in order
(defined directly, independently of the scanner's accumulator). -/
def wArgsList : List Char → ScanMode → Nat → List Nat
  | [], _, _ => []
  | c :: rest, .normal, i =>
    if c == '%' then wArgsList rest .verb i else wArgsList rest .normal i
  | c :: rest, .verb, i =>
    if c == '%' then wArgsList rest .normal i
    else if isFlagChar c then wArgsList rest .verb i
    else if c == 'w' then i :: wArgsList rest .normal (i + 1)
    else wArgsList rest .normal (i + 1)

/-- Whether the format ends with a bare `%` (exhausted inside a directive). -/
def endsWithBarePct : List Char → ScanMode → Bool
  | [], mode => match mode with | .verb => true | .normal => false
  | c :: rest, .normal =>
    if c == '%' then endsWithBarePct rest .verb else endsWithBarePct rest .normal
  | c :: rest, .verb =>
    if c == '%' then endsWithBarePct rest .normal
    else if isFlagChar c then endsWithBarePct rest .verb
    else endsWithBarePct rest .normal

/-- Modelled from the spec: `Newf(format, args...)` recognizes a single
`%w`-style verb to set the cause; multiple `%w` verbs, a missing argument,
a non-error or nil argument for `%w`, and a format ending with a bare `%`
are construction errors reported as a returned error value (never a
panic), with the exact deterministic messages pinned by the repository's
`TestNewf`/`TestNewfEdgeCases`. -/
def Newf (eid : Nat) (fmt : String) (args : List FmtArg) : Err :=
  let r := scanChars args fmt.data .normal ⟨"", [], 0⟩
  if r.2 then
    .base eid ("errors.Newf: format \"" ++ fmt ++ "\" ends with %") "" []
  else
    match r.1.wArgs with
    | [] => .base eid r.1.out "" []
    | [i] =>
      match args.get? i with
      | some (.errArg e) => .wrapped eid r.1.out "" [] e
      | some a =>
        .base eid
          ("errors.Newf: argument " ++ toString i ++
            " for %w is not a non-nil error (" ++ a.typeName ++ ")") "" []
      | none =>
        .base eid ("errors.Newf: format \"" ++ fmt ++ "\" has %w but not enough arguments") "" []
    | _ :: _ :: _ =>
      .base eid ("errors.Newf: format \"" ++ fmt ++ "\" has multiple %w verbs") "" []

/-- Modelled from the spec: `MultiError` — an ordered collection of errors
with a configured size limit (`WithLimit`); sampling is not configured
here.  `errs` preserves insertion order of retained errors. -/
structure MultiError : Type where
  errs : List Err
  limit : Nat
deriving DecidableEq, Repr

/-- Modelled from the spec: `NewMultiError(WithLimit(limit))`. -/
def NewMultiError (limit : Nat) : MultiError := ⟨[], limit⟩

/-- Modelled from the spec and the repository's `TestMultiError_Basic` /
`TestMultiError_MarshalJSON/VariadicAdd`: adding one argument — a nil error
is never stored; once the limit is reached the error is skipped; an error
whose `Error()` text equals that of an already retained error is skipped
(deduplication, pinned by the tests); otherwise it is appended. -/
def MultiError.addOne (m : MultiError) (e : Option Err) : MultiError :=
  match e with
  | none => m
  | some err =>
    if m.limit ≤ m.errs.length then m
    else if m.errs.any (fun x => x.Error == err.Error) then m
    else { m with errs := m.errs ++ [err] }

/-- Modelled from the spec: variadic `Add(errs...)` processes the
arguments in order. -/
def MultiError.Add (m : MultiError) (args : List (Option Err)) : MultiError :=
  args.foldl MultiError.addOne m

/-- Accessor `Count()`: the number of retained errors. -/
def MultiError.Count (m : MultiError) : Nat := m.errs.length

/-- The standard cancellation sentinel (`context.Canceled`), modelled as a
distinguished plain error instance. -/
def contextCanceled : Err := .base 0 "context canceled" "" []

/-- Modelled from the spec: the error the retry executor returns when the
cancellation source fires: it wraps the standard cancellation sentinel so
callers can chain-match it. -/
def cancelWrapErr : Err := .wrapped 1 "retry cancelled" "" [] contextCanceled

/-- Outcome of one `Execute`/`ExecuteReply` invocation: success, a final
failure carrying the last function error (non-retryable failure or
attempts exhausted), or cancellation.  `attempts` is the 1-indexed count
of function invocations actually made. -/
inductive RetryOutcome : Type where
  | ok (attempts : Nat)
  | failed (attempts : Nat) (err : Err)
  | cancelled (attempts : Nat) (err : Err)
deriving DecidableEq, Repr

/-- Modelled from the spec: the retry loop.  `fn n` is the result of the
n-th invocation (`none` = success); `retryIf` is the retry predicate;
`cancelAt n` says whether the cancellation source fires during the
inter-attempt delay that follows attempt `n` (once fired, the delay is
aborted and the cancellation error is returned with no further attempt).
`fuel` is the number of retries still allowed after the current attempt. -/
def retryGo (fn : Nat → Option Err) (retryIf : Err → Bool) (cancelAt : Nat → Bool) :
    Nat → Nat → RetryOutcome
  | attempt, 0 =>
    match fn attempt with
    | none => .ok attempt
    | some e => .failed attempt e
  | attempt, fuel' + 1 =>
    match fn attempt with
    | none => .ok attempt
    | some e =>
      if retryIf e then
        if cancelAt attempt then .cancelled attempt cancelWrapErr
        else retryGo fn retryIf cancelAt (attempt + 1) fuel'
      else .failed attempt e

/-- Modelled from the spec: `Execute` invokes `fn` at least once; with
`maxAttempts = n` at most `n` invocations occur (zero max-attempts still
executes the required first attempt). -/
def Execute (maxAttempts : Nat) (fn : Nat → Option Err) (retryIf : Err → Bool)
    (cancelAt : Nat → Bool) : RetryOutcome :=
  retryGo fn retryIf cancelAt 1 (maxAttempts - 1)

end ErrorsPkg

namespace Errmgr

open ErrorsPkg

/-- An alert delivered on a monitor channel (`errmgr.go`, `shardedCounter.Inc`):
an error named after the counter whose message reports the total and whose
occurrence count is bumped to the current total. -/
structure Alert : Type where
  name : String
  msg : String
  count : Nat
deriving DecidableEq, Repr

/-- The `alertChannel` type (`monitor.go`): a buffered channel plus a closed flag,
modelled as a FIFO list with a capacity. -/
structure AlertChannel : Type where
  buf : List Alert
  capacity : Nat
  closed : Bool
deriving DecidableEq, Repr

/-- Look a key up in an association list (`sync.Map.Load`). -/
def alGet (k : String) : List (String × α) → Option α
  | [] => none
  | (k', v') :: rest => if k' = k then some v' else alGet k rest

/-- Store into an association list: replace the first binding of the key,
or append a fresh one (`sync.Map.Store` / `LoadOrStore` update). -/
def alSet (k : String) (v : α) : List (String × α) → List (String × α)
  | [] => [(k, v)]
  | (k', v') :: rest => if k' = k then (k, v) :: rest else (k', v') :: alSet k v rest

/-- Delete a key from an association list (`sync.Map.Delete`). -/
def alErase (k : String) (l : List (String × α)) : List (String × α) :=
  l.filter (fun p => p.1 != k)

/-- The process-wide `errmgr` registry state: the metrics switch
(`cachedConfig.disableErrMgr`), the template map, the sharded occurrence
counters (name → value; a binding's presence is the name's registration),
the alert thresholds, and the alert channels. -/
structure State : Type where
  disableErrMgr : Bool
  templates : List (String × String)
  counts : List (String × Nat)
  thresholds : List (String × Nat)
  alerts : List (String × AlertChannel)
deriving DecidableEq, Repr

/-- The pristine registry (`init`: metrics enabled, all maps empty). -/
def initState : State := ⟨false, [], [], [], []⟩

/-- From `shardedCounter.RegisterName` (`errmgr.go`): ensure a counter exists
for the name without incrementing it (`LoadOrStore(name, new(uint64))`). -/
def registerName (name : String) (s : State) : State :=
  if (alGet name s.counts).isSome then s
  else { s with counts := s.counts ++ [(name, 0)] }

/-- The registration part of `Define(name, template)` (`errmgr.go`): store
the template and, unless metrics are disabled, register the counter.
(`Tracked` registers the same way.) -/
def defineName (name template : String) (s : State) : State :=
  let s' := { s with templates := alSet name template s.templates }
  if s'.disableErrMgr then s' else registerName name s'

/-- From `SetThreshold(name, threshold)` (`errmgr.go`). -/
def setThreshold (name : String) (threshold : Nat) (s : State) : State :=
  { s with thresholds := alSet name threshold s.thresholds }

/-- The alert message built by `shardedCounter.Inc`. -/
def alertMsg (name : String) (total : Nat) : String :=
  name ++ " count exceeded threshold: " ++ toString total

/-- From `shardedCounter.Inc(name)` (`errmgr.go`): increment the counter
(creating it at zero first if absent), then, if a threshold is registered
and the post-increment total reaches it and an open alert channel is
registered for the name, attempt a non-blocking send of an alert carrying
the name and the current total, silently dropping it if the channel is
full or closed.  Returns the updated state and the new total. -/
def incCounter (name : String) (s : State) : State × Nat :=
  let total := (alGet name s.counts).getD 0 + 1
  let s1 := { s with counts := alSet name total s.counts }
  match alGet name s1.thresholds with
  | none => (s1, total)
  | some thresh =>
    if thresh ≤ total then
      match alGet name s1.alerts with
      | none => (s1, total)
      | some ac =>
        if ac.closed then (s1, total)
        else if ac.buf.length < ac.capacity then
          let ac' : AlertChannel := { ac with buf := ac.buf ++ [⟨name, alertMsg name total, total⟩] }
          ({ s1 with alerts := alSet name ac' s1.alerts }, total)
        else (s1, total)
    else (s1, total)

/-- The increment performed by each call of the constructor that
`Define` returns: `registry.counts.Inc(name)` unless metrics are
disabled. -/
def defineCall (name : String) (s : State) : State :=
  if s.disableErrMgr then s else (incCounter name s).1

/-- From `Reset()` (`errmgr.go`): for every registered counter, store zero and
then delete the binding (`Range` over the keys calling
`shardedCounter.Reset` and `counts.Delete`); the net effect is that the
counter map is emptied.  No effect if metrics are disabled.  Templates,
thresholds and alert channels are untouched. -/
def reset (s : State) : State :=
  if s.disableErrMgr then s else { s with counts := [] }

/-- From `ResetCounter(name)` / `shardedCounter.Reset` (`errmgr.go`): store
zero into the name's counter if it is registered; the binding itself is
kept.  No effect if metrics are disabled. -/
def resetCounter (name : String) (s : State) : State :=
  if s.disableErrMgr then s
  else if (alGet name s.counts).isSome then { s with counts := alSet name 0 s.counts }
  else s

/-- From `Metrics()` (`errmgr.go`): `none` if metrics are disabled; otherwise
the snapshot of the counters with positive value, or `none` if that
snapshot is empty. -/
def metrics (s : State) : Option (List (String × Nat)) :=
  if s.disableErrMgr then none
  else
    let m := s.counts.filter (fun p => 0 < p.2)
    if m.isEmpty then none else some m

/-- From `NewMonitorBuffered(name, buffer)` (`monitor.go`): reuse the channel
already registered for the name, else register a fresh open one with the
given buffer capacity. -/
def newMonitorBuffered (name : String) (buffer : Nat) (s : State) : State :=
  if (alGet name s.alerts).isSome then s
  else { s with alerts := s.alerts ++ [(name, ⟨[], buffer, false⟩)] }

/-- From `NewMonitor(name)` (`monitor.go`): default buffer `monitorSize = 10`. -/
def newMonitor (name : String) (s : State) : State :=
  newMonitorBuffered name 10 s

/-- From `Monitor.Close()` (`monitor.go`): close the channel registered for the
monitor's name and delete it from the registry; idempotent. -/
def closeMonitor (name : String) (s : State) : State :=
  match alGet name s.alerts with
  | none => s
  | some _ => { s with alerts := alErase name s.alerts }

end Errmgr

open ErrorsPkg Errmgr

theorem string_append_ne_empty (a b : String) (h : a ≠ "") : a ++ b ≠ "" := by
  intro hab
  apply h
  cases a with
  | mk da =>
    cases b with
    | mk db =>
      have hdata : da ++ db = [] := congrArg String.data hab
      have hda : da = [] := (List.append_eq_nil.mp hdata).1
      simp [hda]

theorem joinColon_ne_empty :
    ∀ L : List String, (∀ x ∈ L, x ≠ "") → L ≠ [] → joinColon L ≠ "" := by
  intro L hmem hne
  match L with
  | [] => exact absurd rfl hne
  | [m] =>
    simpa [joinColon] using hmem m (by simp)
  | m :: n :: rest =>
    have hm : m ≠ "" := hmem m (by simp)
    have h2 : (m ++ ": ") ≠ "" := string_append_ne_empty m ": " hm
    simpa [joinColon] using string_append_ne_empty (m ++ ": ") (joinColon (n :: rest)) h2

theorem mem_filter_ne_empty {L : List String} {x : String}
    (hx : x ∈ L.filter (fun s => s != "")) : x ≠ "" := by
  have := List.of_mem_filter hx
  simpa using this

theorem alGet_alSet_self {α : Type} (k : String) (v : α) :
    ∀ l : List (String × α), alGet k (alSet k v l) = some v := by
  intro l
  induction l with
  | nil => simp [alSet, alGet]
  | cons p rest ih =>
    rcases p with ⟨k', v'⟩
    by_cases h : k' = k
    · simp [alSet, h, alGet]
    · simp only [alSet, if_neg h, alGet]
      exact ih

theorem alGet_alErase_self {α : Type} (k : String) :
    ∀ l : List (String × α), alGet k (alErase k l) = none := by
  intro l
  induction l with
  | nil => rfl
  | cons p rest ih =>
    rcases p with ⟨k', v'⟩
    by_cases h : k' = k
    · simpa [alErase, h] using ih
    · simp only [alErase, List.filter_cons] at ih ⊢
      rw [if_pos (by simpa using h)]
      simp only [alGet]
      rw [if_neg h]
      exact ih

/-- C1 counterexample: the claim "every counter name registered before
`Reset()` is still registered afterwards" is false on the code.  Register
`"X"` via `Define` in the pristine enabled registry: before `Reset()` its
counter binding exists; after `Reset()` the binding is gone (`Reset`
deletes every registration, as its own doc comment states). -/
theorem c1_reset_keeps_registrations_false :
    ((alGet "X" (defineName "X" "msg %s" initState).counts).isSome = true) ∧
    (alGet "X" (reset (defineName "X" "msg %s" initState)).counts = none) := by
  constructor
  · rfl
  · rfl

/-- C1 (amended): with metrics enabled, `Reset()` zeroes every registered
counter by deleting its registration — afterwards no name is registered —
while templates, thresholds, alert channels and the config are untouched;
`ResetCounter(name)`, by contrast, zeroes the single counter and keeps its
registration in place. -/
theorem c1_reset_amended (s : State) (name : String) (h : s.disableErrMgr = false) :
    (reset s).counts = [] ∧
    alGet name (reset s).counts = none ∧
    (reset s).templates = s.templates ∧
    (reset s).thresholds = s.thresholds ∧
    (reset s).alerts = s.alerts ∧
    (reset s).disableErrMgr = s.disableErrMgr ∧
    (((alGet name s.counts).isSome = true) →
      alGet name (resetCounter name s).counts = some 0) := by
  have hr : reset s = { s with counts := [] } := by
    simp [reset, h]
  refine ⟨by rw [hr], by rw [hr]; rfl, by rw [hr], by rw [hr], by rw [hr],
    by rw [hr], ?_⟩
  intro hreg
  have hrc : resetCounter name s = { s with counts := alSet name 0 s.counts } := by
    simp [resetCounter, h, hreg]
  rw [hrc]
  exact alGet_alSet_self name 0 s.counts

/-- Witness for `c1_reset_amended` at a concrete enabled registry holding
one counter. -/
theorem c1_reset_amended_witness :
    (reset (defineCall "X" (defineName "X" "t" initState))).counts = [] ∧
    alGet "X" (resetCounter "X" (defineCall "X" (defineName "X" "t" initState))).counts =
      some 0 := by
  have h := c1_reset_amended (defineCall "X" (defineName "X" "t" initState)) "X" (by rfl)
  exact ⟨h.1, h.2.2.2.2.2.2 (by rfl)⟩

theorem incCounter_snd (name : String) (s : State) :
    (incCounter name s).2 = (alGet name s.counts).getD 0 + 1 := by
  simp only [incCounter]
  split
  · rfl
  · split
    · split
      · rfl
      · split
        · rfl
        · split
          · rfl
          · rfl
    · rfl

/-- C2 counterexample: the claim "every increment whose post-increment
total is 2 or greater emits exactly one alert error on that channel" is
false on the code: with a threshold of 2 for `"X"`, an *open* unbuffered
monitor channel for `"X"` (capacity 0), and the counter at 1, the next
increment reaches total 2 but the non-blocking send finds no room and the
alert is silently dropped — the channel stays empty. -/
theorem c2_alert_every_increment_false :
    ((alGet "X" (State.mk false [] [("X", 1)] [("X", 2)] [("X", ⟨[], 0, false⟩)]).alerts).map
        AlertChannel.closed = some false) ∧
    (incCounter "X" (State.mk false [] [("X", 1)] [("X", 2)] [("X", ⟨[], 0, false⟩)])).2 = 2 ∧
    ((alGet "X" ((incCounter "X"
        (State.mk false [] [("X", 1)] [("X", 2)] [("X", ⟨[], 0, false⟩)])).1.alerts)).map
        AlertChannel.buf = some []) := by
  refine ⟨rfl, rfl, rfl⟩

/-- C2 (amended): with a threshold registered for a name and an open alert
channel for it, every increment whose post-increment total reaches the
threshold attempts a non-blocking send of exactly one alert carrying the
name and the current total; the alert lands on the channel exactly when
the channel's buffer has free space (it is silently dropped when full);
below the threshold no alert is sent; and once the monitor is closed —
`Close` removes the channel from the registry — subsequent increments
produce no further alerts. -/
theorem c2_threshold_alert_amended (s : State) (name : String) (thresh : Nat)
    (ac : AlertChannel)
    (hth : alGet name s.thresholds = some thresh)
    (hac : alGet name s.alerts = some ac)
    (hopen : ac.closed = false) :
    (incCounter name s).2 = (alGet name s.counts).getD 0 + 1 ∧
    (thresh ≤ (incCounter name s).2 → ac.buf.length < ac.capacity →
      alGet name (incCounter name s).1.alerts =
        some { ac with buf := ac.buf ++
          [⟨name, alertMsg name (incCounter name s).2, (incCounter name s).2⟩] }) ∧
    (thresh ≤ (incCounter name s).2 → ¬ac.buf.length < ac.capacity →
      (incCounter name s).1.alerts = s.alerts) ∧
    ((incCounter name s).2 < thresh → (incCounter name s).1.alerts = s.alerts) ∧
    (∀ t : State, alGet name t.alerts = none → (incCounter name t).1.alerts = t.alerts) ∧
    (∀ t : State, alGet name (closeMonitor name t).alerts = none) := by
  have htot : (incCounter name s).2 = (alGet name s.counts).getD 0 + 1 :=
    incCounter_snd name s
  refine ⟨htot, ?_, ?_, ?_, ?_, ?_⟩
  · intro hle hroom
    rw [htot] at hle
    simp only [incCounter, hth, hopen, hac, htot, if_pos hle, Bool.false_eq_true,
      if_false, if_pos hroom]
    exact alGet_alSet_self name _ s.alerts
  · intro hle hroom
    rw [htot] at hle
    simp only [incCounter, hth, hopen, hac, if_pos hle, Bool.false_eq_true,
      if_false, if_neg hroom]
  · intro hlt
    rw [htot] at hlt
    simp only [incCounter, hth, if_neg (Nat.not_le.mpr hlt)]
  · intro t ht
    simp only [incCounter, ht]
    split
    · rfl
    · split <;> rfl
  · intro t
    simp only [closeMonitor]
    rcases h : alGet name t.alerts with _ | ac'
    · exact h
    · exact alGet_alErase_self name t.alerts

/-- Witness for `c2_threshold_alert_amended`: threshold 2 on `"X"`, a
fresh default monitor (buffer 10), counter at 1; the second increment
lands exactly one alert named `"X"` with total 2 on the channel. -/
theorem c2_threshold_alert_amended_witness :
    alGet "X" ((incCounter "X"
        (State.mk false [] [("X", 1)] [("X", 2)] [("X", ⟨[], 10, false⟩)])).1.alerts) =
      some ⟨[⟨"X", alertMsg "X" 2, 2⟩], 10, false⟩ := by
  have h := (c2_threshold_alert_amended
    (State.mk false [] [("X", 1)] [("X", 2)] [("X", ⟨[], 10, false⟩)])
    "X" 2 ⟨[], 10, false⟩ rfl rfl rfl).2.1 (by decide) (by decide)
  simpa using h

/-- C10: `Metrics()` returns `nil` when metrics are globally disabled, and
also whenever no registered counter has a positive count; registered names
with a zero count are omitted from the snapshot, and a would-be-empty
snapshot is returned as `nil` rather than an empty map. -/
theorem c10_metrics_snapshot (s : State) :
    (s.disableErrMgr = true → metrics s = none) ∧
    ((∀ p ∈ s.counts, p.2 = 0) → metrics s = none) ∧
    (∀ m, metrics s = some m →
      m ≠ [] ∧ ∀ p : String × Nat, (p ∈ m ↔ (p ∈ s.counts ∧ 0 < p.2))) := by
  by_cases hd : s.disableErrMgr
  · refine ⟨fun _ => by simp [metrics, hd], fun _ => by simp [metrics, hd], ?_⟩
    intro m hm
    simp [metrics, hd] at hm
  · refine ⟨fun h => absurd h hd, ?_, ?_⟩
    · intro hz
      have hfil : s.counts.filter (fun p => 0 < p.2) = [] := by
        rw [List.filter_eq_nil_iff]
        intro p hp
        simp [hz p hp]
      simp [metrics, hd, hfil]
    · intro m hm
      simp only [metrics, hd, Bool.false_eq_true, if_false] at hm
      by_cases hE : (s.counts.filter (fun p => 0 < p.2)).isEmpty
      · rw [if_pos hE] at hm
        exact absurd hm (by simp)
      · rw [if_neg hE] at hm
        obtain rfl : s.counts.filter (fun p => 0 < p.2) = m := by
          injection hm
        constructor
        · intro hnil
          rw [hnil] at hE
          exact hE rfl
        · intro p
          constructor
          · intro hp
            have := List.mem_filter.mp hp
            exact ⟨this.1, by simpa using this.2⟩
          · intro hp
            exact List.mem_filter.mpr ⟨hp.1, by simpa using hp.2⟩

/-- Witness for `c10_metrics_snapshot`: a registry with one zero counter
yields no snapshot. -/
theorem c10_metrics_snapshot_witness :
    metrics (State.mk false [] [("A", 0)] [] []) = none :=
  (c10_metrics_snapshot (State.mk false [] [("A", 0)] [] [])).2.1
    (by intro p hp; simpa using congrArg Prod.snd (by simpa using hp))

theorem scanChars_endsPct (args : List FmtArg) :
    ∀ (l : List Char) (mode : ScanMode) (st : ScanState),
      (scanChars args l mode st).2 = endsWithBarePct l mode := by
  intro l
  induction l with
  | nil => intro mode st; cases mode <;> rfl
  | cons c rest ih =>
    intro mode st
    cases mode <;> simp only [scanChars, endsWithBarePct] <;> split_ifs <;> apply ih

theorem scanChars_wArgs (args : List FmtArg) :
    ∀ (l : List Char) (mode : ScanMode) (st : ScanState),
      (scanChars args l mode st).1.wArgs = st.wArgs ++ wArgsList l mode st.argIdx := by
  intro l
  induction l with
  | nil => intro mode st; cases mode <;> simp [scanChars, wArgsList]
  | cons c rest ih =>
    intro mode st
    cases mode <;> simp only [scanChars, wArgsList] <;> split_ifs <;>
      simp [ih, List.append_assoc]

/-- C3: for every format string and argument list that misuses the `%w`
verb — more than one `%w` verb, a `%w` with no corresponding argument, a
`%w` argument that is not a non-nil error, or a format ending with a bare
`%` — `Newf` (a total function: it never panics) returns an error value
with no cause (`.base`) whose message is the exact deterministic text
naming that malformation; in particular for format `"%w %w"` the message
is exactly `errors.Newf: format "%w %w" has multiple %w verbs`.  The
malformation classes are characterized by `endsWithBarePct`/`wArgsList`,
defined independently of the scanner `Newf` runs. -/
theorem c3_newf_malformed (eid : Nat) (fmt : String) (args : List FmtArg) :
    (endsWithBarePct fmt.data .normal = true →
      Newf eid fmt args =
        .base eid ("errors.Newf: format \"" ++ fmt ++ "\" ends with %") "" []) ∧
    (endsWithBarePct fmt.data .normal = false →
      ∀ i j rest, wArgsList fmt.data .normal 0 = i :: j :: rest →
        Newf eid fmt args =
          .base eid ("errors.Newf: format \"" ++ fmt ++ "\" has multiple %w verbs") "" []) ∧
    (endsWithBarePct fmt.data .normal = false →
      ∀ i, wArgsList fmt.data .normal 0 = [i] → args.length ≤ i →
        Newf eid fmt args =
          .base eid ("errors.Newf: format \"" ++ fmt ++ "\" has %w but not enough arguments")
            "" []) ∧
    (endsWithBarePct fmt.data .normal = false →
      ∀ i a, wArgsList fmt.data .normal 0 = [i] → args.get? i = some a →
        (∀ e, a ≠ .errArg e) →
        Newf eid fmt args =
          .base eid ("errors.Newf: argument " ++ toString i ++
            " for %w is not a non-nil error (" ++ a.typeName ++ ")") "" []) ∧
    (∀ e1 e2 : Err,
      Newf eid "%w %w" [.errArg e1, .errArg e2] =
        .base eid "errors.Newf: format \"%w %w\" has multiple %w verbs" "" []) := by
  have he : (scanChars args fmt.data .normal ⟨"", [], 0⟩).2 = endsWithBarePct fmt.data .normal :=
    scanChars_endsPct args fmt.data .normal ⟨"", [], 0⟩
  have hw : (scanChars args fmt.data .normal ⟨"", [], 0⟩).1.wArgs =
      wArgsList fmt.data .normal 0 := by
    simpa using scanChars_wArgs args fmt.data .normal ⟨"", [], 0⟩
  refine ⟨?_, ?_, ?_, ?_, ?_⟩
  · intro hep
    simp only [Newf, he, hep, if_true]
  · intro hep i j rest hlist
    simp only [Newf, he, hep, Bool.false_eq_true, if_false, hw, hlist]
  · intro hep i hlist hlen
    simp only [Newf, he, hep, Bool.false_eq_true, if_false, hw, hlist,
      List.get?_eq_none.mpr hlen]
  · intro hep i a hlist hget hna
    rcases a with e | _ | ⟨r, t⟩
    · exact absurd rfl (hna e)
    · simp only [Newf, he, hep, Bool.false_eq_true, if_false, hw, hlist, hget, FmtArg.typeName]
    · simp only [Newf, he, hep, Bool.false_eq_true, if_false, hw, hlist, hget, FmtArg.typeName]
  · intro e1 e2
    rfl

theorem addOne_skip_of_mem (m : MultiError) (e : Err)
    (h : ∃ x ∈ m.errs, x.Error = e.Error) : m.addOne (some e) = m := by
  simp only [MultiError.addOne]
  by_cases hl : m.limit ≤ m.errs.length
  · rw [if_pos hl]
  · rw [if_neg hl, if_pos]
    obtain ⟨x, hx, hxe⟩ := h
    exact List.any_eq_true.mpr ⟨x, hx, by simpa using hxe⟩

theorem addOne_count_le (m : MultiError) (a : Option Err)
    (h : m.Count ≤ m.limit) :
    (m.addOne a).Count ≤ m.limit ∧ (m.addOne a).limit = m.limit := by
  rcases a with _ | e
  · exact ⟨h, rfl⟩
  · simp only [MultiError.addOne, MultiError.Count] at h ⊢
    by_cases hl : m.limit ≤ m.errs.length
    · rw [if_pos hl]; exact ⟨h, rfl⟩
    · rw [if_neg hl]
      by_cases hd : (m.errs.any fun x => x.Error == e.Error) = true
      · rw [if_pos hd]; exact ⟨h, rfl⟩
      · rw [if_neg hd]
        refine ⟨?_, rfl⟩
        simpa using Nat.lt_of_not_le hl

theorem add_count_le (args : List (Option Err)) :
    ∀ m : MultiError, m.Count ≤ m.limit → (m.Add args).Count ≤ m.limit := by
  induction args with
  | nil => intro m h; exact h
  | cons a rest ih =>
    intro m h
    have h1 := addOne_count_le m a h
    have h2 := ih (m.addOne a) (by rw [h1.2]; exact h1.1)
    calc (m.Add (a :: rest)).Count = ((m.addOne a).Add rest).Count := rfl
      _ ≤ (m.addOne a).limit := h2
      _ = m.limit := h1.2

theorem add_fresh_count (es : List Err) :
    ∀ m : MultiError, m.errs.length ≤ m.limit →
      es.Pairwise (fun a b => a.Error ≠ b.Error) →
      (∀ e ∈ es, ∀ x ∈ m.errs, x.Error ≠ e.Error) →
      (m.Add (es.map some)).Count = min m.limit (m.errs.length + es.length) := by
  induction es with
  | nil =>
    intro m hle _ _
    simp [MultiError.Add, MultiError.Count, Nat.min_eq_right hle]
  | cons e rest ih =>
    intro m hle hpw hfresh
    have hstep : (m.Add ((e :: rest).map some)).Count =
        ((m.addOne (some e)).Add (rest.map some)).Count := rfl
    by_cases hl : m.limit ≤ m.errs.length
    · have heq : m.errs.length = m.limit := le_antisymm hle hl
      have hskip : m.addOne (some e) = m := by
        simp only [MultiError.addOne]; rw [if_pos hl]
      rw [hstep, hskip, ih m hle hpw.of_cons
        (fun e' he' x hx => hfresh e' (List.mem_cons_of_mem e he') x hx)]
      rw [heq]
      omega
    · have hdup : (m.errs.any fun x => x.Error == e.Error) = false := by
        rw [List.any_eq_false]
        intro x hx
        simpa using hfresh e (List.mem_cons_self e rest) x hx
      have hadd : m.addOne (some e) = { m with errs := m.errs ++ [e] } := by
        simp only [MultiError.addOne]
        rw [if_neg hl, if_neg (by simp [hdup])]
      have hlen1 : (m.errs ++ [e]).length ≤ m.limit := by
        simpa using Nat.lt_of_not_le hl
      have hfresh1 : ∀ e' ∈ rest, ∀ x ∈ m.errs ++ [e], x.Error ≠ e'.Error := by
        intro e' he' x hx
        rcases List.mem_append.mp hx with hx | hx
        · exact hfresh e' (List.mem_cons_of_mem e he') x hx
        · have hxe : x = e := by simpa using hx
          subst hxe
          exact (List.pairwise_cons.mp hpw).1 e' he'
      rw [hstep, hadd, ih _ hlen1 hpw.of_cons hfresh1]
      have harith : (m.errs ++ [e]).length + rest.length =
          m.errs.length + (e :: rest).length := by
        simp only [List.length_append, List.length_cons, List.length_nil]
        omega
      rw [harith]

theorem addOne_addOne_same (m : MultiError) (e1 e2 : Err) (heq : e1.Error = e2.Error) :
    (m.addOne (some e1)).addOne (some e2) = m.addOne (some e1) := by
  by_cases hl : m.limit ≤ m.errs.length
  · have h1 : m.addOne (some e1) = m := by
      simp only [MultiError.addOne]; rw [if_pos hl]
    rw [h1]
    simp only [MultiError.addOne]; rw [if_pos hl]
  · by_cases hd : (m.errs.any fun x => x.Error == e1.Error) = true
    · have h1 : m.addOne (some e1) = m := by
        simp only [MultiError.addOne]; rw [if_neg hl, if_pos hd]
      rw [heq] at hd
      rw [h1]
      simp only [MultiError.addOne]; rw [if_neg hl, if_pos hd]
    · have h1 : m.addOne (some e1) = { m with errs := m.errs ++ [e1] } := by
        simp only [MultiError.addOne]
        rw [if_neg hl, if_neg hd]
      rw [h1]
      exact addOne_skip_of_mem _ e2 ⟨e1, by simp, heq⟩

/-- C7: for a MultiError with limit `L` and no sampling, the stored count
never exceeds `L`, `Add(nil)` leaves the collection unchanged, and adding
`2·L` errors with pairwise distinct messages to a fresh collection yields
`Count() = L` exactly. -/
theorem c7_multierror_limit (L : Nat) (es : List Err)
    (hdist : es.Pairwise (fun a b => a.Error ≠ b.Error))
    (hlen : es.length = 2 * L) :
    ((NewMultiError L).Add (es.map some)).Count = L ∧
    (∀ (m : MultiError) (args : List (Option Err)),
      m.Count ≤ m.limit → (m.Add args).Count ≤ m.limit) ∧
    (∀ m : MultiError, m.addOne none = m) := by
  refine ⟨?_, fun m args h => add_count_le args m h, fun m => rfl⟩
  have h := add_fresh_count es (NewMultiError L) (by simp [NewMultiError]) hdist
    (by intro e _ x hx; simp [NewMultiError] at hx)
  rw [h]
  simp only [NewMultiError, List.length_nil, Nat.zero_add, hlen]
  omega

/-- Witness for `c7_multierror_limit`: limit 2, four distinct errors,
final count exactly 2. -/
theorem c7_multierror_limit_witness :
    ((NewMultiError 2).Add
      ([New 1 "a", New 2 "b", New 3 "c", New 4 "d"].map some)).Count = 2 :=
  (c7_multierror_limit 2 [New 1 "a", New 2 "b", New 3 "c", New 4 "d"]
    (by decide) (by decide)).1

/-- C9: `Add` deduplicates on the rendered `Error()` text: an argument
whose message equals that of an already retained error is skipped, so
adding the same error twice — or two distinct errors with identical
messages — leaves the collection unchanged after the first addition. -/
theorem c9_multierror_dedup :
    (∀ (m : MultiError) (e : Err),
      (∃ x ∈ m.errs, x.Error = e.Error) → m.addOne (some e) = m) ∧
    (∀ (m : MultiError) (e : Err),
      (m.addOne (some e)).addOne (some e) = m.addOne (some e)) ∧
    (∀ (m : MultiError) (e1 e2 : Err), e1.Error = e2.Error →
      m.Add [some e1, some e2] = m.Add [some e1]) ∧
    (∀ (m : MultiError) (e1 e2 : Err), e1.Error = e2.Error →
      ((m.addOne (some e1)).addOne (some e2)).Count = (m.addOne (some e1)).Count) := by
  refine ⟨addOne_skip_of_mem, fun m e => addOne_addOne_same m e e rfl, ?_, ?_⟩
  · intro m e1 e2 heq
    show ((m.addOne (some e1)).addOne (some e2)) = m.addOne (some e1)
    exact addOne_addOne_same m e1 e2 heq
  · intro m e1 e2 heq
    rw [addOne_addOne_same m e1 e2 heq]

/-- Witness for `c9_multierror_dedup`: two distinct instances with the
same message; the second addition is a no-op. -/
theorem c9_multierror_dedup_witness :
    (NewMultiError 5).Add [some (New 1 "dup"), some (New 2 "dup")] =
      (NewMultiError 5).Add [some (New 1 "dup")] :=
  c9_multierror_dedup.2.2.1 (NewMultiError 5) (New 1 "dup") (New 2 "dup") rfl

theorem retryGo_cancelled (fn : Nat → Option Err) (retryIf : Err → Bool)
    (cancelAt : Nat → Bool) (k : Nat) :
    ∀ (attempt fuel : Nat), attempt ≤ k → k < attempt + fuel →
      (∀ j, attempt ≤ j → j ≤ k → ∃ e, fn j = some e ∧ retryIf e = true) →
      (∀ j, attempt ≤ j → j < k → cancelAt j = false) →
      cancelAt k = true →
      retryGo fn retryIf cancelAt attempt fuel = .cancelled k cancelWrapErr := by
  intro attempt fuel
  induction fuel generalizing attempt with
  | zero => intro h1 h2 _ _ _; omega
  | succ n ih =>
    intro h1 h2 hfail hnc hk
    obtain ⟨e, hfe, hre⟩ := hfail attempt le_rfl h1
    by_cases hak : attempt = k
    · subst hak
      simp [retryGo, hfe, hre, hk]
    · have hlt : attempt < k := lt_of_le_of_ne h1 hak
      have hca : cancelAt attempt = false := hnc attempt le_rfl hlt
      simp only [retryGo, hfe, hre, if_true, hca, Bool.false_eq_true, if_false]
      exact ih (attempt + 1) hlt (by omega)
        (fun j hj1 hj2 => hfail j (by omega) hj2)
        (fun j hj1 hj2 => hnc j (by omega) hj2) hk

theorem retryGo_exhausted (fn : Nat → Option Err) (retryIf : Err → Bool)
    (cancelAt : Nat → Bool)
    (hnc : ∀ j, cancelAt j = false)
    (hfail : ∀ j, ∃ e, fn j = some e ∧ retryIf e = true ∧
      Is (some e) (some contextCanceled) = false) :
    ∀ (fuel attempt : Nat),
      ∃ e, retryGo fn retryIf cancelAt attempt fuel = .failed (attempt + fuel) e ∧
        Is (some e) (some contextCanceled) = false := by
  intro fuel
  induction fuel with
  | zero =>
    intro attempt
    obtain ⟨e, hfe, _, hne⟩ := hfail attempt
    exact ⟨e, by simp [retryGo, hfe], hne⟩
  | succ n ih =>
    intro attempt
    obtain ⟨e, hfe, hre, hne⟩ := hfail attempt
    obtain ⟨e', hgo, hne'⟩ := ih (attempt + 1)
    refine ⟨e', ?_, hne'⟩
    simp only [retryGo, hfe, hre, if_true, hnc attempt, Bool.false_eq_true, if_false]
    rw [hgo]
    congr 1
    omega

/-- C8: when the cancellation source first fires during the inter-attempt
delay following attempt `k` (each attempt up to `k` having failed
retryably, with a delay still pending because `k < maxAttempts`), the
delay is aborted: `Execute` returns the cancellation outcome after exactly
`k` invocations — no attempt beyond the one already in flight — and its
error chain-matches the standard cancellation sentinel via `Is`.  When the
source never fires and every attempt fails retryably with a sentinel-free
error, `Execute` instead reports exhaustion after `maxAttempts`
invocations with an error that does not match the sentinel, so the two
outcomes are distinguishable by chain matching. -/
theorem c8_retry_cancellation (maxAttempts k : Nat) (fn : Nat → Option Err)
    (retryIf : Err → Bool) (cancelAt : Nat → Bool)
    (h1k : 1 ≤ k) (hkm : k < maxAttempts)
    (hfail : ∀ j, 1 ≤ j → j ≤ k → ∃ e, fn j = some e ∧ retryIf e = true)
    (hnc : ∀ j, 1 ≤ j → j < k → cancelAt j = false)
    (hk : cancelAt k = true) :
    Execute maxAttempts fn retryIf cancelAt = .cancelled k cancelWrapErr ∧
    Is (some cancelWrapErr) (some contextCanceled) = true ∧
    (∀ (fn' : Nat → Option Err) (ca' : Nat → Bool),
      (∀ j, ca' j = false) →
      (∀ j, ∃ e, fn' j = some e ∧ retryIf e = true ∧
        Is (some e) (some contextCanceled) = false) →
      ∃ e, Execute maxAttempts fn' retryIf ca' = .failed maxAttempts e ∧
        Is (some e) (some contextCanceled) = false) := by
  refine ⟨?_, rfl, ?_⟩
  · exact retryGo_cancelled fn retryIf cancelAt k 1 (maxAttempts - 1) h1k (by omega)
      hfail hnc hk
  · intro fn' ca' hnc' hfail'
    obtain ⟨e, hgo, hne⟩ := retryGo_exhausted fn' retryIf ca' hnc' hfail' (maxAttempts - 1) 1
    refine ⟨e, ?_, hne⟩
    have harith : 1 + (maxAttempts - 1) = maxAttempts := by omega
    rw [Execute, hgo, harith]

/-- Witness for `c8_retry_cancellation`: five allowed attempts, every
attempt failing retryably, cancellation firing during the delay after
attempt 2: the run is cancelled at attempt 2. -/
theorem c8_retry_cancellation_witness :
    Execute 5 (fun _ => some (New 5 "boom")) (fun _ => true) (fun j => j == 2) =
      .cancelled 2 cancelWrapErr :=
  (c8_retry_cancellation 5 2 (fun _ => some (New 5 "boom")) (fun _ => true)
    (fun j => j == 2) (by decide) (by decide)
    (fun j _ _ => ⟨New 5 "boom", rfl, rfl⟩)
    (by
      intro j hj1 hj2
      have hj : j = 1 := by omega
      subst hj
      rfl)
    (by rfl)).1

/-- Witness for `c3_newf_malformed`: the missing-argument clause at the
repository's own test vector `Newf("prefix %w")` with no arguments. -/
theorem c3_newf_malformed_witness :
    Newf 0 "prefix %w" [] =
      .base 0 "errors.Newf: format \"prefix %w\" has %w but not enough arguments" "" [] :=
  (c3_newf_malformed 0 "prefix %w" []).2.2.1 (by decide) 0 (by decide) (by decide)

/-- C4: for every error constructed with a message and no cause, `Error()`
returns exactly the original message; for every cause chain, `Error()`
returns the layers' messages joined outermost to innermost with `": "`
separators, with empty segments dropped (hence no double colon can
appear). -/
theorem c4_error_rendering (e : Err) :
    (e.cause = none → e.Error = e.msg) ∧
    e.Error = joinColon (e.chainMsgs.filter (fun m => m != "")) := by
  induction e with
  | base i m n c =>
    refine ⟨fun _ => rfl, ?_⟩
    by_cases hm : m = ""
    · subst hm
      simp [Err.Error, Err.chainMsgs, joinColon]
    · simp [Err.Error, Err.chainMsgs, joinColon, hm]
  | wrapped i m n c cs ih =>
    refine ⟨fun h => by simp [Err.cause] at h, ?_⟩
    have ihe := ih.2
    by_cases hm : m = ""
    · subst hm
      simp [Err.Error, Err.chainMsgs, ihe]
    · rcases hL : cs.chainMsgs.filter (fun s => s != "") with _ | ⟨a, L'⟩
      · have hcs : Err.Error cs = "" := by rw [ihe, hL]; rfl
        simp [Err.Error, Err.chainMsgs, hm, hcs, hL, joinColon]
      · have hne : Err.Error cs ≠ "" := by
          rw [ihe, hL]
          exact joinColon_ne_empty (a :: L')
            (fun x hx => mem_filter_ne_empty (by rw [hL]; exact hx)) (by simp)
        have hlhs : Err.Error (.wrapped i m n c cs) = m ++ ": " ++ Err.Error cs := by
          simp [Err.Error, hm, hne]
        have hfil : (Err.chainMsgs (.wrapped i m n c cs)).filter (fun s => s != "") =
            m :: a :: L' := by
          simp [Err.chainMsgs, List.filter_cons, hm, hL]
        rw [hlhs, hfil, ihe, hL]
        rfl

/-- C5: `UnwrapAll` returns the ordered layer sequence outermost to
innermost; each element's `Error()` is that layer's own message alone (its
cause is stripped), and context set on an outer wrap via `With` never
appears in any inner element (in particular not in an inner `Context()`). -/
theorem c5_unwrapall_isolation (e : Err) :
    (e.UnwrapAll.map Err.msg = e.chainMsgs) ∧
    (∀ x ∈ e.UnwrapAll, x.Error = x.msg ∧ x.cause = none) ∧
    (∀ k v, (e.With k v).UnwrapAll.tail = e.UnwrapAll.tail) ∧
    (∀ k v, (e.With k v).UnwrapAll.tail.map Err.Context =
      e.UnwrapAll.tail.map Err.Context) := by
  refine ⟨?_, ?_, ?_, ?_⟩
  · induction e with
    | base i m n c => rfl
    | wrapped i m n c cs ih =>
      simp [Err.UnwrapAll, Err.chainMsgs, Err.msg] at ih ⊢
      exact ih
  · induction e with
    | base i m n c =>
      intro x hx
      simp [Err.UnwrapAll] at hx
      subst hx
      exact ⟨rfl, rfl⟩
    | wrapped i m n c cs ih =>
      intro x hx
      simp only [Err.UnwrapAll, List.mem_cons] at hx
      rcases hx with hx | hx
      · subst hx; exact ⟨rfl, rfl⟩
      · exact ih x hx
  · intro k v
    cases e with
    | base i m n c => rfl
    | wrapped i m n c cs => rfl
  · intro k v
    cases e with
    | base i m n c => rfl
    | wrapped i m n c cs => rfl

/-- C6: `Is` is reflexive on non-nil errors, `Is(nil, nil)` is true, and
for two named errors (distinct instances), `Is` holds iff their names are
equal and non-empty. -/
theorem c6_is_semantics (a : Err) (i j : Nat) (na nb : String) (hij : i ≠ j) :
    Is (some a) (some a) = true ∧
    Is none none = true ∧
    (Is (some (Named i na)) (some (Named j nb)) = true ↔ (na = nb ∧ na ≠ "")) := by
  refine ⟨?_, rfl, ?_⟩
  · cases a with
    | base ii m n c => simp [Is, Err.chainAny, matchesTarget]
    | wrapped ii m n c cs => simp [Is, Err.chainAny, matchesTarget]
  · have hijb : (i == j) = false := by simpa using hij
    simp [Is, Named, Err.chainAny, matchesTarget, Err.eid, Err.name, hijb, and_comm]

/-- Witness for `c6_is_semantics` at concrete inputs. -/
theorem c6_is_semantics_witness :
    Is (some (Named 1 "X")) (some (Named 2 "X")) = true :=
  ((c6_is_semantics (New 0 "m") 1 2 "X" "X" (by decide)).2.2).mpr ⟨rfl, by decide⟩

/-- Witness for `c4_error_rendering`: the no-cause clause evaluated on a
concrete error. -/
theorem c4_error_rendering_witness :
    (New 7 "test error").Error = (New 7 "test error").msg :=
  (c4_error_rendering (New 7 "test error")).1 rfl

/-- Witness for `c5_unwrapall_isolation`: the membership clause evaluated
on a concrete element of a concrete two-layer chain. -/
theorem c5_unwrapall_isolation_witness :
    (Err.base 1 "outer" "" []).Error = (Err.base 1 "outer" "" []).msg ∧
    (Err.base 1 "outer" "" []).cause = none :=
  (c5_unwrapall_isolation ((New 1 "outer").Wrap (New 2 "inner"))).2.1
    (Err.base 1 "outer" "" []) (by decide)
